import Mathlib

/-!
Verification development for the supergraph-to-subgraph schema transform
(src/main.ts).  The GraphQL schema AST and every pipeline stage are embedded
shallowly: each TypeScript function becomes a Lean function of the same name
operating on a pure `SchemaDocument` value; JavaScript in-place mutation is
rendered as explicit value threading, and the two per-node visitor effects
that differ in mutation behaviour are modelled as explicit
(node-after-the-call, visitor-return-value) pairs.
-/

/-- A constant argument node of a directive usage: `(name, value)`.  The value
payload (string / enum / boolean / object literal) is opaque to the whole
program — it is copied verbatim and never reinterpreted — so it is embedded as
its source text. -/
structure ConstArgumentNode where
  name : String
  value : String
deriving DecidableEq, Repr

/-- A directive usage node.  `arguments` is the optional argument array of the
AST node (`arguments?: readonly ConstArgumentNode[]`).  Entries are `Option`
because `generateFederationDirective` (main.ts line 256) builds the array
`[map.get("key"), map.get("resolvable")]`, whose second slot is the JavaScript
`undefined` value when no `resolvable` argument exists; `none` is that
undefined slot.  All argument arrays produced by the parser/composer contain
only real nodes (`some _`). -/
structure ConstDirectiveNode where
  name : String
  arguments : Option (List (Option ConstArgumentNode))
deriving DecidableEq, Repr

/-- A GraphQL type reference: a named type, a list wrapper, or a non-null
wrapper (`GraphQLList` / `GraphQLNonNull` hold their inner type; named types
are referenced by name, as the spec recommends for union members). -/
inductive GType where
  | named (n : String)
  | list (t : GType)
  | nonNull (t : GType)
deriving DecidableEq, Repr

/-- An input value (a field argument or a directive-definition argument):
name and type.  Default values and descriptions are never read or compared by
any pipeline stage and are omitted. -/
structure InputValueDef where
  name : String
  type : GType
deriving DecidableEq, Repr

/-- A field definition: name, return type and ordered argument list.  Field
level directive usages are never touched by any stage and are omitted. -/
structure FieldDef where
  name : String
  type : GType
  args : List InputValueDef
deriving DecidableEq, Repr

/-- An enum value definition with its own directive usage list
(`EnumValueDefinitionNode.directives`). -/
structure EnumValueDef where
  name : String
  directives : List ConstDirectiveNode
deriving DecidableEq, Repr

/-- A named type definition, polymorphic over the six GraphQL variants.  Each
variant carries its directive usage list (the `astNode.directives` array; an
absent astNode behaves as an empty list for every read in the source).  Union
members are the resolved member type objects (`GraphQLUnionType.types`); an
entry is `none` when `schema.getType(name)` yielded `undefined`. -/
inductive TypeDef where
  | objectT (name : String) (fields : List FieldDef) (directives : List ConstDirectiveNode)
  | interfaceT (name : String) (fields : List FieldDef) (directives : List ConstDirectiveNode)
  | enumT (name : String) (values : List EnumValueDef) (directives : List ConstDirectiveNode)
  | scalarT (name : String) (directives : List ConstDirectiveNode)
  | unionT (name : String) (members : List (Option TypeDef)) (directives : List ConstDirectiveNode)
  | inputObjectT (name : String) (directives : List ConstDirectiveNode)

/-- The name of a type definition (`type.name`). -/
def TypeDef.name : TypeDef → String
  | .objectT n _ _ => n
  | .interfaceT n _ _ => n
  | .enumT n _ _ => n
  | .scalarT n _ => n
  | .unionT n _ _ => n
  | .inputObjectT n _ => n

/-- The directive usage list attached to the type definition itself
(`type.astNode.directives`). -/
def TypeDef.ownDirectives : TypeDef → List ConstDirectiveNode
  | .objectT _ _ ds => ds
  | .interfaceT _ _ ds => ds
  | .enumT _ _ ds => ds
  | .scalarT _ ds => ds
  | .unionT _ _ ds => ds
  | .inputObjectT _ ds => ds

/-- Replace the directive usage list attached to the type definition itself,
keeping every other component. -/
def TypeDef.withOwnDirectives : TypeDef → List ConstDirectiveNode → TypeDef
  | .objectT n fs _, ds => .objectT n fs ds
  | .interfaceT n fs _, ds => .interfaceT n fs ds
  | .enumT n vs _, ds => .enumT n vs ds
  | .scalarT n _, ds => .scalarT n ds
  | .unionT n ms _, ds => .unionT n ms ds
  | .inputObjectT n _, ds => .inputObjectT n ds

/-- Whether the definition is an object type (`isObjectType`). -/
def TypeDef.isObject : TypeDef → Bool
  | .objectT _ _ _ => true
  | _ => false

/-- The enum value definitions of an enum type (empty for other variants). -/
def TypeDef.enumValues : TypeDef → List EnumValueDef
  | .enumT _ vs _ => vs
  | _ => []

/-- A directive definition (`GraphQLDirective`): name, repeatable flag, valid
locations, argument schema. -/
structure DirectiveDefinition where
  name : String
  isRepeatable : Bool
  locations : List String
  args : List InputValueDef
deriving DecidableEq, Repr

/-- The schema document (`GraphQLSchema`): the type map as an insertion
ordered list of named type definitions, the directive definition list, the
schema-level directive usages (`schema.astNode.directives`), and the names of
the root operation types (the query type is always present in a
`GraphQLSchema` produced by composition; mutation and subscription are
optional). -/
structure SchemaDocument where
  types : List TypeDef
  directiveDefs : List DirectiveDefinition
  schemaDirectives : List ConstDirectiveNode
  queryType : String
  mutationType : Option String
  subscriptionType : Option String

/-- The composition-internal name convention, `name.startsWith("join__")`,
embedded as the character-level prefix test (extensionally the same
predicate, and evaluable inside the kernel). -/
def isJoinName (s : String) : Bool := s.data.take 6 == "join__".data

/-- Filtering a directive usage list down to the usages whose name does not
start with `join__` (main.ts line 342). -/
def dropJoinUsages (ds : List ConstDirectiveNode) : List ConstDirectiveNode :=
  ds.filter (fun d => !(isJoinName d.name))

/-- findJoinDirective (main.ts lines 275-281): the first directive usage named
`join__type` on the type, if any. -/
def findJoinDirective (ds : List ConstDirectiveNode) : Option ConstDirectiveNode :=
  ds.find? (fun d => d.name == "join__type")

/-- The JavaScript `Map` built in addFederationDirectives (main.ts line 202)
from `(joinTypeDirective.arguments ?? []).map(arg => [arg.name.value, arg])`,
kept as the entry list in construction order.  An `undefined` array slot
cannot occur in parser-produced argument arrays (their TypeScript type is
`readonly ConstArgumentNode[]`), and the one synthesized array with an
undefined slot is never fed back into this function. -/
def mapOfArgs (args : List (Option ConstArgumentNode)) : List (String × ConstArgumentNode) :=
  (args.filterMap id).map (fun a => (a.name, a))

/-- `Map.get`: the value of the last entry with the given key (later entries
of the JavaScript `Map` constructor overwrite earlier ones). -/
def mapGet (m : List (String × ConstArgumentNode)) (k : String) : Option ConstArgumentNode :=
  (m.reverse.find? (fun p => p.1 == k)).map Prod.snd

/-- `Map.has`. -/
def mapHas (m : List (String × ConstArgumentNode)) (k : String) : Bool :=
  (mapGet m k).isSome

/-- generateFederationDirective (main.ts lines 248-267).  With a `key` entry
present it emits the `key` usage whose argument array is the two-slot
`[map.get("key"), map.get("resolvable")]`; otherwise the `shareable` usage
with no argument array at all. -/
def generateFederationDirective (joinTypeArguments : List (String × ConstArgumentNode)) :
    ConstDirectiveNode :=
  if mapHas joinTypeArguments "key" then
    { name := "key",
      arguments := some [mapGet joinTypeArguments "key", mapGet joinTypeArguments "resolvable"] }
  else
    { name := "shareable", arguments := none }

/-- The `MapperKind.OBJECT_TYPE` visitor of addFederationDirectives (main.ts
lines 197-214) as a per-type function: a non-object type, or an object type
without a `join__type` usage, is returned unchanged (the visitor returns
`undefined`); otherwise a rebuilt object type with the generated federation
directive appended to the existing directive list. -/
def classifyObjectType (t : TypeDef) : TypeDef :=
  match t with
  | .objectT n fs ds =>
    match findJoinDirective ds with
    | none => .objectT n fs ds
    | some j =>
      .objectT n fs (ds ++ [generateFederationDirective (mapOfArgs (j.arguments.getD []))])
  | _ => t

/-- The entity-registry contribution of one type in addFederationDirectives:
`some name` exactly when the visitor generated a directive whose name is
`key` and pushed the type name (main.ts lines 204-206). -/
def entityName (t : TypeDef) : Option String :=
  match t with
  | .objectT n _ ds =>
    match findJoinDirective ds with
    | none => none
    | some j =>
      if (generateFederationDirective (mapOfArgs (j.arguments.getD []))).name == "key" then
        some n
      else
        none
  | _ => none

/-- addFederationDirectives (main.ts lines 194-217): the schema with every
object type classified, paired with the entity name list collected in type
iteration order. -/
def addFederationDirectives (schema : SchemaDocument) : SchemaDocument × List String :=
  ({ schema with types := schema.types.map classifyObjectType },
   schema.types.filterMap entityName)

/-- removeJoinDirectives (main.ts lines 337-344) applied to a type node: the
state of the node after `type.astNode.directives = newDirectives`, i.e. the
node with its own directive list filtered.  (With no astNode the function
returns early; that node has no directives, which the empty list represents.) -/
def removeJoinDirectives (t : TypeDef) : TypeDef :=
  t.withOwnDirectives (dropJoinUsages t.ownDirectives)

/-- removeJoinDirectives applied to an enum value node by the
`MapperKind.ENUM_VALUE` visitor (main.ts lines 295-298). -/
def removeJoinDirectivesFromEnumValue (v : EnumValueDef) : EnumValueDef :=
  { v with directives := dropJoinUsages v.directives }

/-- The combined per-type effect of the two visitors of
removeJoinDirectivesUsages: the `MapperKind.TYPE` visitor filters the type
node directive list, and for an enum type the `MapperKind.ENUM_VALUE` visitor
filters each value definition directive list. -/
def stripJoinFromType (t : TypeDef) : TypeDef :=
  match removeJoinDirectives t with
  | .enumT n vs ds => .enumT n (vs.map removeJoinDirectivesFromEnumValue) ds
  | t' => t'

/-- removeJoinDirectivesUsages (main.ts lines 289-300). -/
def removeJoinDirectivesUsages (schema : SchemaDocument) : SchemaDocument :=
  { schema with types := schema.types.map stripJoinFromType }

/-- Whether a type name names a root operation type of the schema
(`MapperKind.ROOT_OBJECT` applies to the schema query, mutation and
subscription types). -/
def isRootName (schema : SchemaDocument) (n : String) : Bool :=
  n == schema.queryType ||
    schema.mutationType == some n ||
    schema.subscriptionType == some n

/-- The `MapperKind.ROOT_OBJECT` visitor of
removeFederationDirectivesFromRootObjects (main.ts lines 227-235) as a
per-type function: a root object type is rebuilt (`new GraphQLObjectType`)
from its own config with an empty astNode directive list; every other type is
untouched.  Root operation types of a `GraphQLSchema` are always object
types. -/
def sanitizeRootType (schema : SchemaDocument) (t : TypeDef) : TypeDef :=
  if t.isObject && isRootName schema t.name then t.withOwnDirectives [] else t

/-- removeFederationDirectivesFromRootObjects (main.ts lines 225-237). -/
def removeFederationDirectivesFromRootObjects (schema : SchemaDocument) : SchemaDocument :=
  { schema with types := schema.types.map (sanitizeRootType schema) }

/-- Whether removeJoinTypes keeps a type definition: its `MapperKind.ENUM_TYPE`
and `MapperKind.SCALAR_TYPE` visitors return `null` (remove) for a `join__`
prefixed name and `undefined` (keep) otherwise; other variants are never
visited for removal. -/
def keepsType (t : TypeDef) : Bool :=
  match t with
  | .enumT n _ _ => !(isJoinName n)
  | .scalarT n _ => !(isJoinName n)
  | _ => true

/-- removeJoinTypes (main.ts lines 308-329): drops `join__` prefixed enum
types and scalar types from the type map and `join__` prefixed directive
definitions from the directive list. -/
def removeJoinTypes (schema : SchemaDocument) : SchemaDocument :=
  { schema with
    types := schema.types.filter keepsType,
    directiveDefs := schema.directiveDefs.filter (fun d => !(isJoinName d.name)) }

/-- The `@link` schema directive usage stamped by setFederationSchemaDirective
(main.ts lines 142-161). -/
def linkDirectiveUsage : ConstDirectiveNode :=
  { name := "link",
    arguments := some [some { name := "url", value := "https://specs.apollo.dev/federation/v2.5" }] }

/-- setFederationSchemaDirective (main.ts lines 138-164): the schema astNode
is reassigned with its directive list replaced by the single `@link` usage. -/
def setFederationSchemaDirective (schema : SchemaDocument) : SchemaDocument :=
  { schema with schemaDirectives := [linkDirectiveUsage] }

/-- JavaScript string-keyed record assignment `record[key x] = x` on an
insertion-ordered entry list: an existing key keeps its position and gets the
new value; a fresh key is appended at the end. -/
def jsAssign {α : Type} (key : α → String) (l : List α) (x : α) : List α :=
  if l.any (fun y => key y == key x) then
    l.map (fun y => if key y == key x then x else y)
  else
    l ++ [x]

/-- `schema.getType(name)` / record lookup on the insertion-ordered type map. -/
def lookupType (ts : List TypeDef) (n : String) : Option TypeDef :=
  ts.find? (fun t => t.name == n)

/-- The `_Any` scalar synthesized at main.ts line 52. -/
def anyScalar : TypeDef := .scalarT "_Any" []

/-- The `FieldSet` scalar synthesized at main.ts line 53. -/
def fieldSetScalar : TypeDef := .scalarT "FieldSet" []

/-- The `_entities` field written into the query type field map (main.ts
lines 78-96): name `_entities`, return type `new GraphQLNonNull(new
GraphQLList(entityUnion))` = `[_Entity]!`, and the single argument
`representations` of type `new GraphQLNonNull(new GraphQLList(new
GraphQLNonNull(anyScalar)))` = `[_Any!]!`.  The entity union and any scalar
parameters enter the field only as the named type references `_Entity` and
`_Any`. -/
def entitiesFieldDef : FieldDef :=
  { name := "_entities",
    type := .nonNull (.list (.named "_Entity")),
    args := [{ name := "representations",
               type := .nonNull (.list (.nonNull (.named "_Any"))) }] }

/-- The effect of `resultSchema.getQueryType().getFields()._entities = {...}`
on one type map entry: the query object type has the `_entities` field
assigned into its field record; every other entry is untouched. -/
def assignEntitiesField (queryTypeName : String) (t : TypeDef) : TypeDef :=
  match t with
  | .objectT n fs ds =>
    if n == queryTypeName then
      .objectT n (jsAssign FieldDef.name fs entitiesFieldDef) ds
    else
      .objectT n fs ds
  | _ => t

/-- addEntitiesQueryToSchema (main.ts lines 73-97):
`resultSchema.getQueryType().getFields()._entities = {...}` — the query
object type (the type map entry under the schema query type name) has the
`_entities` field assigned into its field record. -/
def addEntitiesQueryToSchema (schema : SchemaDocument) : SchemaDocument :=
  { schema with types := schema.types.map (assignEntitiesField schema.queryType) }

/-- The `@key` directive definition pushed by addFederationDirectivesToSchema
(main.ts lines 111-124). -/
def keyDirectiveDef : DirectiveDefinition :=
  { name := "key",
    isRepeatable := true,
    locations := ["OBJECT", "INTERFACE"],
    args := [{ name := "fields", type := .nonNull (.named "FieldSet") },
             { name := "resolvable", type := .named "Boolean" }] }

/-- The `@shareable` directive definition pushed by
addFederationDirectivesToSchema (main.ts lines 125-129). -/
def shareableDirectiveDef : DirectiveDefinition :=
  { name := "shareable", isRepeatable := true, locations := ["OBJECT", "FIELD_DEFINITION"],
    args := [] }

/-- addFederationDirectivesToSchema (main.ts lines 105-131): pushes the two
definitions onto the schema directive list. -/
def addFederationDirectivesToSchema (schema : SchemaDocument) : SchemaDocument :=
  { schema with directiveDefs := schema.directiveDefs ++ [keyDirectiveDef, shareableDirectiveDef] }

/-- normalizeSchema (main.ts lines 46-64), with each in-place mutation of the
source rendered as threading the updated value into the next stage.  The
`_Entity` union member array is computed by resolving each recorded entity
name against the pruned schema (line 56), before the three type map
assignments of lines 58-60. -/
def normalizeSchema (schema : SchemaDocument) : SchemaDocument :=
  let schema0 := setFederationSchemaDirective schema
  let classified := addFederationDirectives schema0
  let schemaWithFederationDirectives := classified.1
  let entityNames := classified.2
  let schemaWithoutJoinDirectives := removeJoinDirectivesUsages schemaWithFederationDirectives
  let schemaWithoutRootFedDirectives :=
    removeFederationDirectivesFromRootObjects schemaWithoutJoinDirectives
  let resultSchema := removeJoinTypes schemaWithoutRootFedDirectives
  let entityUnion : TypeDef :=
    .unionT "_Entity" (entityNames.map (lookupType resultSchema.types)) []
  let withScaffoldTypes :=
    { resultSchema with
      types := jsAssign TypeDef.name
        (jsAssign TypeDef.name
          (jsAssign TypeDef.name resultSchema.types anyScalar)
          fieldSetScalar)
        entityUnion }
  addFederationDirectivesToSchema (addEntitiesQueryToSchema withScaffoldTypes)

/-- A composition error with its message. -/
structure CompositionError where
  message : String
deriving DecidableEq, Repr

/-- The result of `composeServices`: an optional error array (present exactly
when composition failed) and the composed schema, which the program only
reads when `errors` is absent. -/
structure CompositionResult where
  errors : Option (List CompositionError)
  schema : SchemaDocument

/-- loadSchema (main.ts lines 173-186): a truthy `errors` array throws
`new Error(errors.map(e => e.message).join("\n"))`; otherwise the composed
schema is returned. -/
def loadSchema (compositionResult : CompositionResult) : Except String SchemaDocument :=
  match compositionResult.errors with
  | some errs => .error (String.intercalate "\n" (errs.map CompositionError.message))
  | none => .ok compositionResult.schema

/-- The observable outcome of one run: the transformed schema written to the
target file, or `core.setFailed` called with a message. -/
inductive RunOutcome where
  | success (printed : SchemaDocument)
  | failed (message : String)

/-- run (main.ts lines 24-38): a thrown loadSchema error (an `Error`
instance) is caught and `core.setFailed(error.message)` reports its message;
otherwise the pipeline transforms the schema and the result is written. -/
def run (compositionResult : CompositionResult) : RunOutcome :=
  match loadSchema compositionResult with
  | .error msg => .failed msg
  | .ok schema => .success (normalizeSchema schema)

/-- One call of the `MapperKind.TYPE` visitor of removeJoinDirectivesUsages
(main.ts lines 291-294): the pair (state of the visited node after the call,
the visitor return value).  removeJoinDirectives writes the filtered list
back into the node (`type.astNode.directives = newDirectives`, line 343) and
the visitor returns `undefined`, so the visited node itself is updated and no
replacement node is produced. -/
def typeVisitEffect (t : TypeDef) : TypeDef × Option TypeDef :=
  (removeJoinDirectives t, none)

/-- One call of the `MapperKind.ROOT_OBJECT` visitor of
removeFederationDirectivesFromRootObjects (main.ts lines 227-235): the pair
(state of the visited node after the call, the visitor return value).  The
visitor builds `new GraphQLObjectType({...type.toConfig(), astNode: {...,
directives: []}})` and never writes into the visited node. -/
def rootObjectVisitEffect (t : TypeDef) : TypeDef × Option TypeDef :=
  (t, some (t.withOwnDirectives []))

/-! ### The pipeline stages of normalizeSchema as named intermediate values -/

/-- The document after the five rewrite stages of normalizeSchema, before the
scaffolding edits: the value bound to `resultSchema` at main.ts line 51. -/
def prunedSchema (schema : SchemaDocument) : SchemaDocument :=
  removeJoinTypes
    (removeFederationDirectivesFromRootObjects
      (removeJoinDirectivesUsages
        (addFederationDirectives (setFederationSchemaDirective schema)).1))

/-- The entity registry collected by addFederationDirectives inside
normalizeSchema: the value bound to `entityNames` at main.ts line 48. -/
def registryNames (schema : SchemaDocument) : List String :=
  (addFederationDirectives (setFederationSchemaDirective schema)).2

/-- The `_Entity` union constructed at main.ts lines 54-57, with its member
array resolved against the pruned document. -/
def entityUnionOf (schema : SchemaDocument) : TypeDef :=
  .unionT "_Entity" ((registryNames schema).map (lookupType (prunedSchema schema).types)) []

/-- The `join__type(graph: A)` usage used by the concrete example document. -/
def joinTypeNoKey : ConstDirectiveNode :=
  { name := "join__type", arguments := some [some { name := "graph", value := "A" }] }

/-- The `join__type(graph: A, key: "id")` usage used by the concrete example
document. -/
def joinTypeWithKey : ConstDirectiveNode :=
  { name := "join__type",
    arguments := some [some { name := "graph", value := "A" },
                       some { name := "key", value := "id" }] }

/-- A small concrete document used to instantiate the universally quantified
claims: a query type, one entity object type (`join__type` with a `key`
argument), one shareable object type (`join__type` without `key`), a
composition enum and the composition directive definition. -/
def exampleSchema : SchemaDocument :=
  { types :=
      [ .objectT "Query" [] [joinTypeNoKey],
        .objectT "Product" [{ name := "id", type := .named "ID", args := [] }]
          [joinTypeWithKey],
        .objectT "Money" [] [joinTypeNoKey],
        .enumT "join__Graph"
          [{ name := "A", directives := [{ name := "join__graph", arguments := none }] }] [],
        .scalarT "join__FieldSet" [] ],
    directiveDefs :=
      [{ name := "join__type", isRepeatable := true, locations := ["OBJECT"], args := [] }],
    schemaDirectives := [],
    queryType := "Query",
    mutationType := none,
    subscriptionType := none }

/-- Whether a type definition and (for enums) its value definitions carry no
`join__` prefixed directive usage. -/
def noJoinUsages (t : TypeDef) : Bool :=
  t.ownDirectives.all (fun d => !(isJoinName d.name)) &&
    t.enumValues.all (fun v => v.directives.all (fun d => !(isJoinName d.name)))

/-- One pruning pass: the composition artifact stripper followed by the
composition type eliminator (main.ts lines 49 and 51, stages 3 and 5 of the
pipeline). -/
def stripThenEliminate (schema : SchemaDocument) : SchemaDocument :=
  removeJoinTypes (removeJoinDirectivesUsages schema)

/-- A concrete failed composition result. -/
def exampleFailure : CompositionResult :=
  { errors := some [{ message := "boom" }, { message := "bad" }], schema := exampleSchema }

/-! ### Generic lemmas about list search and record assignment -/

theorem find?_cons_true {α : Type} (p : α → Bool) (a : α) (l : List α) (h : p a = true) :
    (a :: l).find? p = some a := by
  simp [List.find?_cons, h]

theorem find?_cons_false {α : Type} (p : α → Bool) (a : α) (l : List α) (h : p a = false) :
    (a :: l).find? p = l.find? p := by
  simp [List.find?_cons, h]

theorem find?_map_of_key_eq {α : Type} (key : α → String) (f : α → α)
    (hf : ∀ t, key (f t) = key t) (n : String) :
    ∀ l : List α, (l.map f).find? (fun y => key y == n) = (l.find? (fun y => key y == n)).map f
  | [] => rfl
  | a :: t => by
    simp only [List.map_cons]
    cases ha : (key a == n) with
    | true =>
      have hfa : ((fun y => key y == n) (f a)) = true := by simp only [hf a]; exact ha
      rw [find?_cons_true (fun y => key y == n) (f a) _ hfa,
        find?_cons_true (fun y => key y == n) a t ha, Option.map_some']
    | false =>
      have hfa : ((fun y => key y == n) (f a)) = false := by simp only [hf a]; exact ha
      rw [find?_cons_false (fun y => key y == n) (f a) _ hfa,
        find?_cons_false (fun y => key y == n) a t ha]
      exact find?_map_of_key_eq key f hf n t

theorem find?_map_assign_self {α : Type} (key : α → String) (x : α) :
    ∀ l : List α, l.any (fun y => key y == key x) = true →
      (l.map (fun y => if key y == key x then x else y)).find? (fun y => key y == key x) = some x
  | [], h => by simp at h
  | a :: t, h => by
    simp only [List.map_cons]
    cases ha : (key a == key x) with
    | true =>
      rw [if_pos rfl]
      exact find?_cons_true (fun y => key y == key x) x _ (by simp)
    | false =>
      rw [if_neg (by simp)]
      rw [find?_cons_false (fun y => key y == key x) a _ ha]
      have h' : t.any (fun y => key y == key x) = true := by
        simpa [List.any_cons, ha] using h
      exact find?_map_assign_self key x t h'

theorem find?_append_all_false {α : Type} (p : α → Bool) (x : α) :
    ∀ l : List α, l.any p = false → (l ++ [x]).find? p = [x].find? p
  | [], _ => rfl
  | a :: t, h => by
    have h' : p a = false ∧ t.any p = false := by simpa [List.any_cons] using h
    rw [List.cons_append, find?_cons_false p a _ h'.1]
    exact find?_append_all_false p x t h'.2

theorem jsAssign_find_self {α : Type} (key : α → String) (l : List α) (x : α) :
    (jsAssign key l x).find? (fun y => key y == key x) = some x := by
  unfold jsAssign
  cases h : l.any (fun y => key y == key x) with
  | true =>
    rw [if_pos rfl]
    exact find?_map_assign_self key x l h
  | false =>
    rw [if_neg (by simp)]
    rw [find?_append_all_false (fun y => key y == key x) x l h]
    exact find?_cons_true (fun y => key y == key x) x [] (by simp)

theorem find?_map_assign_other {α : Type} (key : α → String) (x : α) (n : String)
    (hx : (key x == n) = false) :
    ∀ l : List α,
      (l.map (fun y => if key y == key x then x else y)).find? (fun y => key y == n) =
        l.find? (fun y => key y == n)
  | [] => rfl
  | a :: t => by
    simp only [List.map_cons]
    cases ha : (key a == key x) with
    | true =>
      rw [if_pos rfl]
      have hkey : key a = key x := by
        have := ha
        rw [beq_iff_eq] at this
        exact this
      have hpa : ((fun y => key y == n) a) = false := by simp only []; rw [hkey]; exact hx
      rw [find?_cons_false (fun y => key y == n) x _ hx,
        find?_cons_false (fun y => key y == n) a t hpa]
      exact find?_map_assign_other key x n hx t
    | false =>
      rw [if_neg (by simp)]
      cases hpa : (key a == n) with
      | true =>
        rw [find?_cons_true (fun y => key y == n) a _ hpa,
          find?_cons_true (fun y => key y == n) a t hpa]
      | false =>
        rw [find?_cons_false (fun y => key y == n) a _ hpa,
          find?_cons_false (fun y => key y == n) a t hpa]
        exact find?_map_assign_other key x n hx t

theorem find?_append_single {α : Type} (p : α → Bool) (x : α) (hx : p x = false) :
    ∀ l : List α, (l ++ [x]).find? p = l.find? p
  | [] => by simp [List.find?_cons, hx]
  | a :: t => by
    rw [List.cons_append]
    cases hpa : p a with
    | true => rw [find?_cons_true p a _ hpa, find?_cons_true p a t hpa]
    | false =>
      rw [find?_cons_false p a _ hpa, find?_cons_false p a t hpa]
      exact find?_append_single p x hx t

theorem jsAssign_find_other {α : Type} (key : α → String) (l : List α) (x : α) (n : String)
    (hx : (key x == n) = false) :
    (jsAssign key l x).find? (fun y => key y == n) = l.find? (fun y => key y == n) := by
  unfold jsAssign
  cases h : l.any (fun y => key y == key x) with
  | true =>
    rw [if_pos rfl]
    exact find?_map_assign_other key x n hx l
  | false =>
    rw [if_neg (by simp)]
    exact find?_append_single (fun y => key y == n) x hx l

/-! ### Preservation facts about the per-type stage functions -/

theorem classifyObjectType_pres (t : TypeDef) :
    (classifyObjectType t).name = t.name ∧ (classifyObjectType t).isObject = t.isObject := by
  cases t with
  | objectT n fs ds =>
    simp only [classifyObjectType]
    cases findJoinDirective ds <;> simp [TypeDef.name, TypeDef.isObject]
  | interfaceT n fs ds => exact ⟨rfl, rfl⟩
  | enumT n vs ds => exact ⟨rfl, rfl⟩
  | scalarT n ds => exact ⟨rfl, rfl⟩
  | unionT n ms ds => exact ⟨rfl, rfl⟩
  | inputObjectT n ds => exact ⟨rfl, rfl⟩

theorem stripJoinFromType_pres (t : TypeDef) :
    (stripJoinFromType t).name = t.name ∧ (stripJoinFromType t).isObject = t.isObject := by
  cases t <;>
    simp [stripJoinFromType, removeJoinDirectives, TypeDef.withOwnDirectives,
      TypeDef.ownDirectives, TypeDef.name, TypeDef.isObject]

theorem sanitizeRootType_pres (s : SchemaDocument) (t : TypeDef) :
    (sanitizeRootType s t).name = t.name ∧ (sanitizeRootType s t).isObject = t.isObject := by
  unfold sanitizeRootType
  split
  · cases t <;> simp [TypeDef.withOwnDirectives, TypeDef.name, TypeDef.isObject]
  · exact ⟨rfl, rfl⟩

theorem keepsType_of_isObject (t : TypeDef) (h : t.isObject = true) : keepsType t = true := by
  cases t <;> simp_all [TypeDef.isObject, keepsType]

theorem entityName_shape (t : TypeDef) (n : String) (h : entityName t = some n) :
    t.name = n ∧ t.isObject = true := by
  cases t with
  | objectT n0 fs ds =>
    refine ⟨?_, rfl⟩
    cases hj : findJoinDirective ds with
    | none => simp [entityName, hj] at h
    | some j =>
      simp only [entityName, hj] at h
      split at h
      · simpa using h
      · cases h
  | interfaceT n0 fs ds => simp [entityName] at h
  | enumT n0 vs ds => simp [entityName] at h
  | scalarT n0 ds => simp [entityName] at h
  | unionT n0 ms ds => simp [entityName] at h
  | inputObjectT n0 ds => simp [entityName] at h

theorem normalizeSchema_eq (schema : SchemaDocument) :
    normalizeSchema schema =
      addFederationDirectivesToSchema (addEntitiesQueryToSchema
        { prunedSchema schema with
          types := jsAssign TypeDef.name
            (jsAssign TypeDef.name
              (jsAssign TypeDef.name (prunedSchema schema).types anyScalar)
              fieldSetScalar)
            (entityUnionOf schema) }) := rfl

theorem registryNames_eq (schema : SchemaDocument) :
    registryNames schema = schema.types.filterMap entityName := rfl

theorem prunedSchema_types (schema : SchemaDocument) :
    (prunedSchema schema).types =
      (((schema.types.map classifyObjectType).map stripJoinFromType).map
          (sanitizeRootType
            (removeJoinDirectivesUsages
              (addFederationDirectives (setFederationSchemaDirective schema)).1))).filter
        keepsType := rfl

theorem assignEntitiesField_name (q : String) (t : TypeDef) :
    (assignEntitiesField q t).name = t.name := by
  cases t with
  | objectT n fs ds =>
    simp only [assignEntitiesField]
    split <;> rfl
  | interfaceT n fs ds => rfl
  | enumT n vs ds => rfl
  | scalarT n ds => rfl
  | unionT n ms ds => rfl
  | inputObjectT n ds => rfl

/-! ### Resolution of every registered entity name in the pruned document -/

theorem exists_object_map (f : TypeDef → TypeDef)
    (hf : ∀ t, (f t).name = t.name ∧ (f t).isObject = t.isObject)
    (l : List TypeDef) (n : String)
    (h : ∃ t ∈ l, t.name = n ∧ t.isObject = true) :
    ∃ t ∈ l.map f, t.name = n ∧ t.isObject = true := by
  obtain ⟨t, ht, hn, ho⟩ := h
  exact ⟨f t, List.mem_map_of_mem f ht, (hf t).1.trans hn, (hf t).2.trans ho⟩

theorem exists_object_filter (l : List TypeDef) (n : String)
    (h : ∃ t ∈ l, t.name = n ∧ t.isObject = true) :
    ∃ t ∈ l.filter keepsType, t.name = n ∧ t.isObject = true := by
  obtain ⟨t, ht, hn, ho⟩ := h
  exact ⟨t, List.mem_filter.mpr ⟨ht, keepsType_of_isObject t ho⟩, hn, ho⟩

theorem entity_resolves (schema : SchemaDocument) (n : String)
    (hn : n ∈ registryNames schema) :
    ∃ t, lookupType (prunedSchema schema).types n = some t ∧ t.name = n := by
  rw [registryNames_eq] at hn
  obtain ⟨t0, ht0, he⟩ := List.mem_filterMap.mp hn
  have hshape := entityName_shape t0 n he
  have hex5 : ∃ t ∈ (prunedSchema schema).types, t.name = n ∧ t.isObject = true := by
    rw [prunedSchema_types]
    refine exists_object_filter _ _ ?_
    refine exists_object_map _ (sanitizeRootType_pres _) _ _ ?_
    refine exists_object_map _ stripJoinFromType_pres _ _ ?_
    refine exists_object_map _ classifyObjectType_pres _ _ ?_
    exact ⟨t0, ht0, hshape.1, hshape.2⟩
  obtain ⟨t, htmem, htn, _⟩ := hex5
  have hsome : ((prunedSchema schema).types.find? (fun y => y.name == n)).isSome := by
    rw [List.find?_isSome]
    exact ⟨t, htmem, by simp [htn]⟩
  obtain ⟨u, hu⟩ := Option.isSome_iff_exists.mp hsome
  refine ⟨u, hu, ?_⟩
  have := List.find?_some hu
  simpa using this

theorem memberNames_of_resolves (ts : List TypeDef) :
    ∀ names : List String, (∀ n ∈ names, ∃ t, lookupType ts n = some t ∧ t.name = n) →
      (names.map (lookupType ts)).filterMap (fun m => Option.map TypeDef.name m) = names
  | [], _ => rfl
  | n :: rest, h => by
    obtain ⟨t, ht, htn⟩ := h n (List.mem_cons_self n rest)
    simp only [List.map_cons, List.filterMap_cons, ht, Option.map_some', htn]
    rw [memberNames_of_resolves ts rest (fun m hm => h m (List.mem_cons_of_mem n hm))]

theorem lookup_normalize_entity (schema : SchemaDocument) :
    lookupType (normalizeSchema schema).types "_Entity" = some (entityUnionOf schema) := by
  rw [normalizeSchema_eq]
  have h1 :
      (addFederationDirectivesToSchema (addEntitiesQueryToSchema
        { prunedSchema schema with
          types := jsAssign TypeDef.name
            (jsAssign TypeDef.name
              (jsAssign TypeDef.name (prunedSchema schema).types anyScalar)
              fieldSetScalar)
            (entityUnionOf schema) })).types =
      (jsAssign TypeDef.name
        (jsAssign TypeDef.name
          (jsAssign TypeDef.name (prunedSchema schema).types anyScalar)
          fieldSetScalar)
        (entityUnionOf schema)).map
        (assignEntitiesField (prunedSchema schema).queryType) := rfl
  rw [h1]
  unfold lookupType
  rw [find?_map_of_key_eq TypeDef.name _ (assignEntitiesField_name _) "_Entity"]
  have h2 : TypeDef.name (entityUnionOf schema) = "_Entity" := rfl
  rw [show ("_Entity" : String) = TypeDef.name (entityUnionOf schema) from rfl]
  rw [jsAssign_find_self TypeDef.name _ (entityUnionOf schema)]
  rfl

/-! ### Claim C1 -/

/-- C1: for every input document, the member set of the `_Entity` union built
by the scaffold assembler equals exactly the set of object type names for
which the entity classifier found a `key` argument on the type's first
`join__type` directive — every registered name resolves to a member and no
other member appears (the member name list is the registry itself). -/
theorem entity_union_matches_entity_registry (schema : SchemaDocument) :
    ∃ members : List (Option TypeDef),
      lookupType (normalizeSchema schema).types "_Entity" =
        some (TypeDef.unionT "_Entity" members []) ∧
      members.filterMap (fun m => Option.map TypeDef.name m) = registryNames schema ∧
      (∀ x : String,
        x ∈ members.filterMap (fun m => Option.map TypeDef.name m) ↔
          ∃ t ∈ schema.types, entityName t = some x) := by
  refine ⟨(registryNames schema).map (lookupType (prunedSchema schema).types), ?_, ?_, ?_⟩
  · exact lookup_normalize_entity schema
  · exact memberNames_of_resolves _ _ (fun n hn => entity_resolves schema n hn)
  · intro x
    rw [memberNames_of_resolves _ _ (fun n hn => entity_resolves schema n hn), registryNames_eq]
    exact List.mem_filterMap

theorem entity_union_matches_entity_registry_witness :
    ∃ members : List (Option TypeDef),
      lookupType (normalizeSchema exampleSchema).types "_Entity" =
        some (TypeDef.unionT "_Entity" members []) ∧
      members.filterMap (fun m => Option.map TypeDef.name m) = registryNames exampleSchema ∧
      (∀ x : String,
        x ∈ members.filterMap (fun m => Option.map TypeDef.name m) ↔
          ∃ t ∈ exampleSchema.types, entityName t = some x) :=
  entity_union_matches_entity_registry exampleSchema


/-! ### Claims C2 and C3: the two classifier branches -/

theorem generateFederationDirective_key (m : List (String × ConstArgumentNode))
    (hk : mapHas m "key" = true) :
    generateFederationDirective m =
      { name := "key", arguments := some [mapGet m "key", mapGet m "resolvable"] } := by
  unfold generateFederationDirective
  rw [if_pos hk]

theorem generateFederationDirective_shareable (m : List (String × ConstArgumentNode))
    (hk : mapHas m "key" = false) :
    generateFederationDirective m = { name := "shareable", arguments := none } := by
  unfold generateFederationDirective
  rw [if_neg (by simp [hk])]

theorem entityName_of_key (n : String) (fs : List FieldDef) (ds : List ConstDirectiveNode)
    (j : ConstDirectiveNode) (hj : findJoinDirective ds = some j)
    (hk : mapHas (mapOfArgs (j.arguments.getD [])) "key" = true) :
    entityName (.objectT n fs ds) = some n := by
  simp only [entityName, hj, generateFederationDirective_key _ hk]
  simp

theorem entityName_of_no_key (n : String) (fs : List FieldDef) (ds : List ConstDirectiveNode)
    (j : ConstDirectiveNode) (hj : findJoinDirective ds = some j)
    (hk : mapHas (mapOfArgs (j.arguments.getD [])) "key" = false) :
    entityName (.objectT n fs ds) = none := by
  simp only [entityName, hj, generateFederationDirective_shareable _ hk]
  simp

/-- C2 counterexample: for a `join__type` usage carrying a `key` argument and
no `resolvable` argument, the emitted `key` usage's argument array is the
two-slot array whose second slot is the undefined placeholder — not the
one-entry array `[key-argument]` the claim asserts. -/
theorem key_directive_placeholder_counterexample :
    generateFederationDirective (mapOfArgs [some { name := "key", value := "id" }]) =
      { name := "key",
        arguments := some [some { name := "key", value := "id" }, none] } ∧
    (some [some ({ name := "key", value := "id" } : ConstArgumentNode), none] ≠
      some [some ({ name := "key", value := "id" } : ConstArgumentNode)]) :=
  ⟨rfl, by decide⟩

/-- C2 (amended): for every object type whose first `join__type` directive
has a `key` argument, the classifier emits a `key` usage whose argument array
always has exactly two slots — the `key` argument followed by the lookup of
`resolvable`, the second slot being the undefined placeholder (`none`) when
no `resolvable` argument is present — appends it to the type's directive
list, and registers the type's name in the entity registry. -/
theorem key_directive_two_slot_arguments (schema : SchemaDocument) (n : String)
    (fs : List FieldDef) (ds : List ConstDirectiveNode) (j : ConstDirectiveNode)
    (hmem : TypeDef.objectT n fs ds ∈ schema.types)
    (hj : findJoinDirective ds = some j)
    (hk : mapHas (mapOfArgs (j.arguments.getD [])) "key" = true) :
    classifyObjectType (.objectT n fs ds) =
      .objectT n fs (ds ++
        [{ name := "key",
           arguments := some [mapGet (mapOfArgs (j.arguments.getD [])) "key",
                              mapGet (mapOfArgs (j.arguments.getD [])) "resolvable"] }]) ∧
    n ∈ (addFederationDirectives schema).2 := by
  constructor
  · simp only [classifyObjectType, hj, generateFederationDirective_key _ hk]
  · exact List.mem_filterMap.mpr ⟨.objectT n fs ds, hmem, entityName_of_key n fs ds j hj hk⟩

theorem key_directive_two_slot_arguments_witness :
    classifyObjectType
        (.objectT "Product" [{ name := "id", type := .named "ID", args := [] }]
          [joinTypeWithKey]) =
      .objectT "Product" [{ name := "id", type := .named "ID", args := [] }]
        ([joinTypeWithKey] ++
          [{ name := "key",
             arguments :=
               some [mapGet (mapOfArgs (joinTypeWithKey.arguments.getD [])) "key",
                     mapGet (mapOfArgs (joinTypeWithKey.arguments.getD [])) "resolvable"] }]) ∧
    "Product" ∈ (addFederationDirectives exampleSchema).2 :=
  key_directive_two_slot_arguments exampleSchema "Product"
    [{ name := "id", type := .named "ID", args := [] }] [joinTypeWithKey] joinTypeWithKey
    (by simp [exampleSchema]) rfl rfl

/-- C3: an object type whose first `join__type` directive lacks a `key`
argument gets exactly one appended `shareable` usage with no arguments, never
a `key` usage, and contributes nothing to the entity registry. -/
theorem shareable_fallback (n : String) (fs : List FieldDef) (ds : List ConstDirectiveNode)
    (j : ConstDirectiveNode) (hj : findJoinDirective ds = some j)
    (hk : mapHas (mapOfArgs (j.arguments.getD [])) "key" = false) :
    classifyObjectType (.objectT n fs ds) =
      .objectT n fs (ds ++ [{ name := "shareable", arguments := none }]) ∧
    (generateFederationDirective (mapOfArgs (j.arguments.getD []))).name ≠ "key" ∧
    entityName (.objectT n fs ds) = none := by
  refine ⟨?_, ?_, entityName_of_no_key n fs ds j hj hk⟩
  · simp only [classifyObjectType, hj, generateFederationDirective_shareable _ hk]
  · rw [generateFederationDirective_shareable _ hk]
    decide

theorem shareable_fallback_witness :
    classifyObjectType (.objectT "Money" [] [joinTypeNoKey]) =
      .objectT "Money" [] ([joinTypeNoKey] ++ [{ name := "shareable", arguments := none }]) ∧
    (generateFederationDirective (mapOfArgs (joinTypeNoKey.arguments.getD []))).name ≠ "key" ∧
    entityName (.objectT "Money" [] [joinTypeNoKey]) = none :=
  shareable_fallback "Money" [] [joinTypeNoKey] joinTypeNoKey rfl rfl

/-! ### Claim C4: the stripper removes exactly the join usages -/

theorem dropJoinUsages_clean (ds : List ConstDirectiveNode) :
    (dropJoinUsages ds).all (fun d => !(isJoinName d.name)) = true := by
  rw [List.all_eq_true]
  intro d hd
  exact (List.mem_filter.mp hd).2

theorem stripJoinFromType_ownDirectives (t : TypeDef) :
    (stripJoinFromType t).ownDirectives = dropJoinUsages t.ownDirectives := by
  cases t <;>
    simp [stripJoinFromType, removeJoinDirectives, TypeDef.withOwnDirectives,
      TypeDef.ownDirectives]

theorem stripJoinFromType_enumValues (t : TypeDef) :
    (stripJoinFromType t).enumValues =
      t.enumValues.map removeJoinDirectivesFromEnumValue := by
  cases t <;>
    simp [stripJoinFromType, removeJoinDirectives, TypeDef.withOwnDirectives,
      TypeDef.ownDirectives, TypeDef.enumValues]

theorem stripJoinFromType_clean (t : TypeDef) : noJoinUsages (stripJoinFromType t) = true := by
  unfold noJoinUsages
  rw [stripJoinFromType_ownDirectives, stripJoinFromType_enumValues]
  rw [Bool.and_eq_true]
  constructor
  · exact dropJoinUsages_clean t.ownDirectives
  · rw [List.all_eq_true]
    intro v hv
    obtain ⟨w, _, rfl⟩ := List.mem_map.mp hv
    exact dropJoinUsages_clean w.directives

/-- C4: the composition artifact stripper rewrites every type by filtering
its directive usage list (and, for enums, each value's list) down to the
non-`join__` usages, preserved verbatim and in order; afterwards no type
definition and no enum value definition carries a `join__` usage. -/
theorem strip_removes_exactly_join_usages (schema : SchemaDocument) (t : TypeDef) :
    (removeJoinDirectivesUsages schema).types = schema.types.map stripJoinFromType ∧
    noJoinUsages (stripJoinFromType t) = true ∧
    (stripJoinFromType t).ownDirectives =
      t.ownDirectives.filter (fun d => !(isJoinName d.name)) ∧
    (stripJoinFromType t).enumValues =
      t.enumValues.map
        (fun v => { v with directives := v.directives.filter (fun d => !(isJoinName d.name)) }) :=
  ⟨rfl, stripJoinFromType_clean t, stripJoinFromType_ownDirectives t,
    stripJoinFromType_enumValues t⟩

/-! ### Claim C5: root sanitization -/

theorem ownDirectives_withOwnDirectives (t : TypeDef) (ds : List ConstDirectiveNode) :
    (t.withOwnDirectives ds).ownDirectives = ds := by
  cases t <;> rfl

/-- C5: after the root sanitizer, every root operation type (the query type,
and the mutation/subscription types when present) carries zero directive
usages, no matter how many it carried before, and every non-root type is left
untouched. -/
theorem root_sanitizer_clears_root_directives (schema : SchemaDocument) (t : TypeDef) :
    (removeFederationDirectivesFromRootObjects schema).types =
      schema.types.map (sanitizeRootType schema) ∧
    (t.isObject = true → isRootName schema t.name = true →
      (sanitizeRootType schema t).ownDirectives = []) ∧
    (isRootName schema t.name = false → sanitizeRootType schema t = t) := by
  refine ⟨rfl, ?_, ?_⟩
  · intro ho hr
    unfold sanitizeRootType
    rw [if_pos (by rw [ho, hr]; rfl)]
    exact ownDirectives_withOwnDirectives t []
  · intro hr
    unfold sanitizeRootType
    rw [if_neg (by simp [hr])]

/-! ### Claim C6: idempotence of the pruning pair -/

theorem filter_idem {α : Type} (p : α → Bool) : ∀ l : List α, (l.filter p).filter p = l.filter p
  | [] => rfl
  | a :: t => by
    cases h : p a with
    | true => simp [List.filter_cons, h, filter_idem p t]
    | false => simp [List.filter_cons, h, filter_idem p t]

theorem dropJoinUsages_idem (ds : List ConstDirectiveNode) :
    dropJoinUsages (dropJoinUsages ds) = dropJoinUsages ds :=
  filter_idem _ ds

theorem removeJoinDirectivesFromEnumValue_idem (v : EnumValueDef) :
    removeJoinDirectivesFromEnumValue (removeJoinDirectivesFromEnumValue v) =
      removeJoinDirectivesFromEnumValue v := by
  simp [removeJoinDirectivesFromEnumValue, dropJoinUsages_idem]

theorem stripJoinFromType_idem (t : TypeDef) :
    stripJoinFromType (stripJoinFromType t) = stripJoinFromType t := by
  cases t <;>
    simp [stripJoinFromType, removeJoinDirectives, TypeDef.withOwnDirectives,
      TypeDef.ownDirectives, dropJoinUsages_idem, List.map_map,
      Function.comp, removeJoinDirectivesFromEnumValue_idem]

theorem keepsType_stripJoinFromType (t : TypeDef) :
    keepsType (stripJoinFromType t) = keepsType t := by
  cases t <;>
    simp [stripJoinFromType, removeJoinDirectives, TypeDef.withOwnDirectives,
      TypeDef.ownDirectives, keepsType]

theorem SchemaDocument.ext_fields (a b : SchemaDocument)
    (h1 : a.types = b.types) (h2 : a.directiveDefs = b.directiveDefs)
    (h3 : a.schemaDirectives = b.schemaDirectives) (h4 : a.queryType = b.queryType)
    (h5 : a.mutationType = b.mutationType) (h6 : a.subscriptionType = b.subscriptionType) :
    a = b := by
  cases a; cases b; simp_all

/-- C6: running the pruning pair (artifact stripper, then type eliminator)
twice yields the same document as running it once, and after a single pass no
`join__` prefixed directive usage, enum type, scalar type or directive
definition survives. -/
theorem prune_idempotent (schema : SchemaDocument) :
    stripThenEliminate (stripThenEliminate schema) = stripThenEliminate schema ∧
    (∀ u ∈ (stripThenEliminate schema).types, noJoinUsages u = true ∧ keepsType u = true) ∧
    (∀ dd ∈ (stripThenEliminate schema).directiveDefs, isJoinName dd.name = false) := by
  refine ⟨?_, ?_, ?_⟩
  · apply SchemaDocument.ext_fields
    · show ((((schema.types.map stripJoinFromType).filter keepsType).map
          stripJoinFromType).filter keepsType) =
        (schema.types.map stripJoinFromType).filter keepsType
      have hfix : ∀ x ∈ (schema.types.map stripJoinFromType).filter keepsType,
          stripJoinFromType x = id x := by
        intro x hx
        obtain ⟨y, _, rfl⟩ := List.mem_map.mp (List.mem_of_mem_filter hx)
        exact stripJoinFromType_idem y
      rw [List.map_congr_left hfix, List.map_id]
      exact filter_idem _ _
    · show ((schema.directiveDefs.filter (fun d => !(isJoinName d.name))).filter
          (fun d => !(isJoinName d.name))) =
        schema.directiveDefs.filter (fun d => !(isJoinName d.name))
      exact filter_idem _ _
    · rfl
    · rfl
    · rfl
    · rfl
  · intro u hu
    have hu' := List.mem_filter.mp hu
    obtain ⟨y, _, rfl⟩ := List.mem_map.mp hu'.1
    exact ⟨stripJoinFromType_clean y, hu'.2⟩
  · intro dd hdd
    have := (List.mem_filter.mp hdd).2
    simpa using this

/-! ### Claim C7: the shape of the assembled _entities field -/

/-- C7: in the assembled document, the query type's `_entities` field is
exactly the synthesized field — return type non-null-list-of-`_Entity`
(`[_Entity]!`) and a single argument `representations` of type
non-null-list-of-non-null-`_Any` (`[_Any!]!`). -/
theorem entities_field_shape (schema : SchemaDocument) (n : String) (fs : List FieldDef)
    (ds : List ConstDirectiveNode)
    (h : lookupType (normalizeSchema schema).types schema.queryType =
      some (.objectT n fs ds)) :
    fs.find? (fun f => f.name == "_entities") = some entitiesFieldDef ∧
    entitiesFieldDef.type = GType.nonNull (.list (.named "_Entity")) ∧
    entitiesFieldDef.args =
      [{ name := "representations",
         type := GType.nonNull (.list (.nonNull (.named "_Any"))) }] := by
  refine ⟨?_, rfl, rfl⟩
  rw [normalizeSchema_eq] at h
  unfold lookupType at h
  rw [show (addFederationDirectivesToSchema (addEntitiesQueryToSchema
        { prunedSchema schema with
          types := jsAssign TypeDef.name
            (jsAssign TypeDef.name
              (jsAssign TypeDef.name (prunedSchema schema).types anyScalar)
              fieldSetScalar)
            (entityUnionOf schema) })).types =
      (jsAssign TypeDef.name
        (jsAssign TypeDef.name
          (jsAssign TypeDef.name (prunedSchema schema).types anyScalar)
          fieldSetScalar)
        (entityUnionOf schema)).map
        (assignEntitiesField (prunedSchema schema).queryType) from rfl] at h
  rw [find?_map_of_key_eq TypeDef.name _ (assignEntitiesField_name _) schema.queryType] at h
  obtain ⟨u, hu, hrest⟩ := Option.map_eq_some'.mp h
  have hname : (u.name == schema.queryType) = true := by
    simpa using List.find?_some hu
  cases u with
  | objectT n0 fs0 ds0 =>
    have hq : (n0 == (prunedSchema schema).queryType) = true := hname
    simp only [assignEntitiesField] at hrest
    rw [if_pos hq] at hrest
    have hfs : jsAssign FieldDef.name fs0 entitiesFieldDef = fs := by
      injection hrest
    rw [← hfs]
    exact jsAssign_find_self FieldDef.name fs0 entitiesFieldDef
  | interfaceT n0 fs0 ds0 => simp [assignEntitiesField] at hrest
  | enumT n0 vs0 ds0 => simp [assignEntitiesField] at hrest
  | scalarT n0 ds0 => simp [assignEntitiesField] at hrest
  | unionT n0 ms0 ds0 => simp [assignEntitiesField] at hrest
  | inputObjectT n0 ds0 => simp [assignEntitiesField] at hrest

theorem entities_field_shape_witness :
    [entitiesFieldDef].find? (fun f => f.name == "_entities") = some entitiesFieldDef ∧
    entitiesFieldDef.type = GType.nonNull (.list (.named "_Entity")) ∧
    entitiesFieldDef.args =
      [{ name := "representations",
         type := GType.nonNull (.list (.nonNull (.named "_Any"))) }] :=
  entities_field_shape exampleSchema "Query" [entitiesFieldDef] [] rfl

/-! ### Claim C8: failure reporting -/

/-- C8: when composition fails, the run reports failure whose message is the
newline-joined concatenation of all underlying composition error messages,
and the pipeline never runs (no transformed schema is produced). -/
theorem run_reports_composition_failure (compositionResult : CompositionResult)
    (errs : List CompositionError) (h : compositionResult.errors = some errs) :
    run compositionResult =
      .failed (String.intercalate "\n" (errs.map CompositionError.message)) ∧
    ∀ out : SchemaDocument, run compositionResult ≠ .success out := by
  have hload : loadSchema compositionResult =
      .error (String.intercalate "\n" (errs.map CompositionError.message)) := by
    unfold loadSchema
    rw [h]
  constructor
  · unfold run
    rw [hload]
  · intro out hcon
    unfold run at hcon
    rw [hload] at hcon
    cases hcon

theorem run_reports_composition_failure_witness :
    run exampleFailure =
      .failed (String.intercalate "\n"
        (([{ message := "boom" }, { message := "bad" }] : List CompositionError).map
          CompositionError.message)) ∧
    ∀ out : SchemaDocument, run exampleFailure ≠ .success out :=
  run_reports_composition_failure exampleFailure
    [{ message := "boom" }, { message := "bad" }] rfl

/-! ### Claim C9: which visitor mutates its node in place -/

theorem typeVisit_changes_join_carrying_node :
    (typeVisitEffect (.objectT "Query" [] [joinTypeNoKey])).1 ≠
      .objectT "Query" [] [joinTypeNoKey] := by
  intro hcon
  have h2 := congrArg TypeDef.ownDirectives hcon
  rw [show (typeVisitEffect (.objectT "Query" [] [joinTypeNoKey])).1.ownDirectives =
      ([] : List ConstDirectiveNode) from rfl] at h2
  exact List.cons_ne_nil _ _ h2.symm

/-- C9 counterexample: at a root object node carrying a `join__type` usage,
the root sanitizer visitor leaves the visited node unchanged (it returns a
freshly rebuilt node), while the artifact stripper visitor changes the
visited node in place — the opposite of the claim. -/
theorem root_sanitizer_mutation_counterexample :
    (rootObjectVisitEffect (.objectT "Query" [] [joinTypeNoKey])).1 =
      .objectT "Query" [] [joinTypeNoKey] ∧
    (typeVisitEffect (.objectT "Query" [] [joinTypeNoKey])).1 ≠
      .objectT "Query" [] [joinTypeNoKey] :=
  ⟨rfl, typeVisit_changes_join_carrying_node⟩

/-- C9 (amended): it is the composition artifact stripper whose visitor
mutates the visited node's directive list in place (returning no replacement
node), while root-type sanitization rebuilds the node — its visitor leaves
the visited node unchanged and returns a freshly constructed node with an
empty directive list. -/
theorem stripper_mutates_root_sanitizer_rebuilds :
    (∀ t : TypeDef, (rootObjectVisitEffect t).1 = t) ∧
    (∀ t : TypeDef, (rootObjectVisitEffect t).2 = some (t.withOwnDirectives [])) ∧
    (∀ t : TypeDef, (typeVisitEffect t).2 = none) ∧
    (∃ t : TypeDef, (typeVisitEffect t).1 ≠ t) :=
  ⟨fun _ => rfl, fun _ => rfl, fun _ => rfl,
    ⟨.objectT "Query" [] [joinTypeNoKey], typeVisit_changes_join_carrying_node⟩⟩

/-! ### Claim C10: the three scaffold type map assignments -/

/-- C10: the three scaffold assignments write the synthesized `_Any` scalar,
`FieldSet` scalar and `_Entity` union into the type map — silently replacing
any pre-existing entry of the same name, with no error — and every entry
under any other name is left exactly as it was. -/
theorem scaffold_assignments_overwrite (ts : List TypeDef)
    (members : List (Option TypeDef)) (n : String) :
    lookupType
        (jsAssign TypeDef.name
          (jsAssign TypeDef.name (jsAssign TypeDef.name ts anyScalar) fieldSetScalar)
          (.unionT "_Entity" members [])) "_Any" = some anyScalar ∧
    lookupType
        (jsAssign TypeDef.name
          (jsAssign TypeDef.name (jsAssign TypeDef.name ts anyScalar) fieldSetScalar)
          (.unionT "_Entity" members [])) "FieldSet" = some fieldSetScalar ∧
    lookupType
        (jsAssign TypeDef.name
          (jsAssign TypeDef.name (jsAssign TypeDef.name ts anyScalar) fieldSetScalar)
          (.unionT "_Entity" members [])) "_Entity" = some (.unionT "_Entity" members []) ∧
    (n ≠ "_Any" → n ≠ "FieldSet" → n ≠ "_Entity" →
      lookupType
          (jsAssign TypeDef.name
            (jsAssign TypeDef.name (jsAssign TypeDef.name ts anyScalar) fieldSetScalar)
            (.unionT "_Entity" members [])) n = lookupType ts n) := by
  refine ⟨?_, ?_, ?_, ?_⟩
  · unfold lookupType
    rw [jsAssign_find_other TypeDef.name _ (.unionT "_Entity" members []) "_Any" rfl,
      jsAssign_find_other TypeDef.name _ fieldSetScalar "_Any" rfl]
    exact jsAssign_find_self TypeDef.name ts anyScalar
  · unfold lookupType
    rw [jsAssign_find_other TypeDef.name _ (.unionT "_Entity" members []) "FieldSet" rfl]
    exact jsAssign_find_self TypeDef.name _ fieldSetScalar
  · unfold lookupType
    exact jsAssign_find_self TypeDef.name _ (.unionT "_Entity" members [])
  · intro h1 h2 h3
    unfold lookupType
    rw [jsAssign_find_other TypeDef.name _ (.unionT "_Entity" members []) n
        (by simpa using Ne.symm h3),
      jsAssign_find_other TypeDef.name _ fieldSetScalar n (by simpa using Ne.symm h2),
      jsAssign_find_other TypeDef.name _ anyScalar n (by simpa using Ne.symm h1)]
